import Mathlib

/-!
Shallow embedding of the Mask post-processing effect of `bevy-vfx-bag`,
from `src/post_processing/masks.rs` (pipeline-integrated path) and
`src/image/mask.rs` (legacy material path).

Float values (`f32`) are carried opaquely by this code: they are copied,
compared and used as sort keys, and never arithmetically combined.  They
are embedded as rationals (`ℚ`), each Rust float literal mapped to the
corresponding decimal literal.
-/

/-- Variant selector of the Mask effect (`enum MaskVariant` in
`src/post_processing/masks.rs`): `Square`, `Crt` or `Vignette`. -/
inductive MaskVariant where
  | Square
  | Crt
  | Vignette
deriving DecidableEq, Repr, Fintype

/-- Conversion `From<MaskVariant> for ShaderDefVal` in
`src/post_processing/masks.rs`: the shader define string selecting the
variant's code path. -/
def MaskVariant.shaderDefVal : MaskVariant → String
  | .Square => "SQUARE"
  | .Crt => "CRT"
  | .Vignette => "VIGNETTE"

/-- Modelled from the spec: the host engine's `Camera` as consumed here
(spec section 6, "unique id, active flag") — `Mask::extract_component`
reads only the `is_active` flag. -/
structure Camera where
  is_active : Bool
deriving DecidableEq

/-- Mask effect instance (`struct Mask` in `src/post_processing/masks.rs`):
public `strength` and `fade` floats and the `variant` selector. -/
structure Mask where
  strength : ℚ
  fade : ℚ
  variant : MaskVariant
deriving DecidableEq, Repr

/-- Constructor `Mask::square()`: strength 20., fade 0., Square. -/
def Mask.square : Mask := ⟨20, 0, .Square⟩

/-- Constructor `Mask::crt()`: strength 80000., fade 0., Crt. -/
def Mask.crt : Mask := ⟨80000, 0, .Crt⟩

/-- Constructor `Mask::vignette()`: strength 0.66, fade 0., Vignette. -/
def Mask.vignette : Mask := ⟨0.66, 0, .Vignette⟩

/-- Implementation of `Default for Mask`: delegates to `Self::vignette()`. -/
def Mask.default : Mask := Mask.vignette

/-- Store to the public `fade` field of a `Mask`.  The field is a plain
`pub f32`; runtime controllers write it directly and no code in the crate
clamps it. -/
def Mask.setFade (m : Mask) (v : ℚ) : Mask := ⟨m.strength, v, m.variant⟩

/-- Uniform record `struct MaskUniform` in `src/post_processing/masks.rs`:
exactly the two fields `strength` and `fade`. -/
structure MaskUniform where
  strength : ℚ
  fade : ℚ
deriving DecidableEq, Repr

/-- Conversion `From<Mask> for MaskUniform`: copies `strength` and `fade`. -/
def MaskUniform.ofMask (mask : Mask) : MaskUniform := ⟨mask.strength, mask.fade⟩

/-- Extraction `ExtractComponent for Mask::extract_component`
(`src/post_processing/masks.rs`): returns `None` when the camera is not
active, otherwise `Some` of the uniform record paired with the variant. -/
def Mask.extract_component (settings : Mask) (camera : Camera) :
    Option (MaskUniform × MaskVariant) :=
  if !camera.is_active then none
  else some (MaskUniform.ofMask settings, settings.variant)

/-- Extraction viewed as a step on the scene snapshot: `extract_component`
takes its query item by immutable reference (`&'static Self, &'static
Camera`), so the scene-side pair is returned unchanged next to the
produced output. -/
def extractStep (s : Mask × Camera) :
    (Mask × Camera) × Option (MaskUniform × MaskVariant) :=
  (s, Mask.extract_component s.1 s.2)

/-- Variant enum of the legacy material path (`enum MaskVariant` in
`src/image/mask.rs`, a distinct type from the pipeline-integrated one). -/
inductive ImageMaskVariant where
  | Square
  | Crt
  | Vignette
deriving DecidableEq, Repr, Fintype

/-- Shader define chosen by `Material2d for MaskMaterial::specialize`
(`src/image/mask.rs`) and pushed onto the fragment state's defines. -/
def ImageMaskVariant.specializeDef : ImageMaskVariant → String
  | .Square => "SQUARE"
  | .Crt => "CRT"
  | .Vignette => "VIGNETTE"

/-- Render pipeline descriptor as determined by this effect: the label and
the variant-keyed shader defines (`super::render_pipeline_descriptor`
fills the remaining fields from fixed layouts shared by all variants). -/
structure RenderPipelineDescriptor where
  label : String
  shader_defs : List String
deriving DecidableEq

/-- Pipeline specialization `SpecializedRenderPipeline for MaskData`
(`src/post_processing/masks.rs`): the descriptor labelled "Masks" whose
shader defines are the single define converted from the key. -/
def MaskData.specialize (key : MaskVariant) : RenderPipelineDescriptor :=
  ⟨"Masks", [key.shaderDefVal]⟩

/-- Modelled from the spec: the Specialization Cache of section 4.2, the
engine-side `SpecializedRenderPipelines` resource that `prepare` calls
into — a map from variant keys to compiled pipeline ids, compiling on
first request only.  `compiledLog` records every compilation in order;
`nextId` is the next fresh pipeline id. -/
structure SpecializedRenderPipelines where
  entries : List (MaskVariant × Nat)
  compiledLog : List MaskVariant
  nextId : Nat
deriving DecidableEq, Repr

/-- Lookup of a variant key among the cache entries. -/
def lookupId (k : MaskVariant) : List (MaskVariant × Nat) → Option Nat
  | [] => none
  | e :: rest => if e.1 = k then some e.2 else lookupId k rest

/-- Modelled from the spec: `get_or_build(variant_key) -> pipeline_id`
(section 4.2) — return the cached id when the key is present; otherwise
compile (recorded in `compiledLog`), cache the fresh id and return it. -/
def getOrBuild (k : MaskVariant) (s : SpecializedRenderPipelines) :
    Nat × SpecializedRenderPipelines :=
  match lookupId k s.entries with
  | some i => (i, s)
  | none => (s.nextId, ⟨(k, s.nextId) :: s.entries, s.compiledLog ++ [k], s.nextId + 1⟩)

/-- Specialization cache before any request is made. -/
def SpecializedRenderPipelines.empty : SpecializedRenderPipelines := ⟨[], [], 0⟩

/-- Process a sequence of specialization requests — any number of frames
and instances — in order, threading the cache state. -/
def processAll (s : SpecializedRenderPipelines) (ks : List MaskVariant) :
    SpecializedRenderPipelines :=
  ks.foldl (fun st k => (getOrBuild k st).2) s

/-- Modelled from the spec: a Phase Item (spec section 3) — camera id,
sort key (Order), draw-function id and pipeline id.  The concrete
`PostProcessingPhaseItem` lives in `post_processing/mod.rs`, outside the
given sources. -/
structure PostProcessingPhaseItem where
  entity : Nat
  sort_key : ℚ
  draw_function : Nat
  pipeline_id : Nat
deriving DecidableEq, Repr

/-- One extracted view as queried by `prepare`: the camera entity, its
current phase queue, its `Order<Mask>` value and the extracted
`MaskVariant` key. -/
structure ViewInput where
  entity : Nat
  phase : List PostProcessingPhaseItem
  order : ℚ
  key : MaskVariant
deriving DecidableEq, Repr

/-- The `prepare` system (`src/post_processing/masks.rs`): for every view,
resolve a pipeline id for its variant key through the specialization
cache and append one phase item carrying the view's entity, its Order as
sort key, the registered draw-function id `df` and the resolved pipeline
id.  Returns the final cache state and every view's phase queue. -/
def prepare (df : Nat) (s : SpecializedRenderPipelines) :
    List ViewInput → SpecializedRenderPipelines × List (List PostProcessingPhaseItem)
  | [] => (s, [])
  | v :: vs =>
    let r := getOrBuild v.key s
    let rest := prepare df r.2 vs
    (rest.1, (v.phase ++ [⟨v.entity, v.order, df, r.1⟩]) :: rest.2)

/-- Bind group for the mask uniform: records the uniform buffer binding it
references (the remaining `BindGroupDescriptor` fields are the constant
label and layout). -/
structure MaskBindGroup where
  buffer : Nat
deriving DecidableEq

/-- The `queue` system (`src/post_processing/masks.rs`): first statement
unconditionally clears the `UniformBindGroup` slot, then rebuilds it only
when the frame's uniform buffer binding exists and the query of entities
with a `MaskUniform` is non-empty.  `prev` is the slot's content from the
previous run; the clear overwrites it before anything is read. -/
def queue (binding : Option Nat) (views : List Nat)
    (prev : Option MaskBindGroup) : Option MaskBindGroup :=
  let inner : Option MaskBindGroup := none
  match prev, binding with
  | _, none => inner
  | _, some b => if views.isEmpty then inner else some ⟨b⟩

/-- Ascending order on phase items by their sort key. -/
def itemLE (a b : PostProcessingPhaseItem) : Prop := a.sort_key ≤ b.sort_key

instance : DecidableRel itemLE :=
  fun a b => inferInstanceAs (Decidable (a.sort_key ≤ b.sort_key))

instance : IsTotal PostProcessingPhaseItem itemLE :=
  ⟨fun a b => le_total a.sort_key b.sort_key⟩

instance : IsTrans PostProcessingPhaseItem itemLE :=
  ⟨fun _ _ _ h h2 => le_trans h h2⟩

/-- Modelled from the spec: the per-camera phase queue sort — ascending by
sort key with insertion-order stability for ties (spec sections 3 and
4.4; the `PhaseItem` sort implementation lives in
`post_processing/mod.rs`, outside the given sources).  Insertion sort
places each element before the first existing element it is `≤`, which is
the stable ascending sort. -/
def sortPhase (l : List PostProcessingPhaseItem) : List PostProcessingPhaseItem :=
  List.insertionSort itemLE l

/-- C1: extraction produces the entry for a mask exactly when its camera's
active flag is true, and returns `None` (dropping the effect for the
frame) when the flag is false. -/
theorem extract_component_active (m : Mask) (c : Camera) :
    (c.is_active = true →
      Mask.extract_component m c = some (MaskUniform.ofMask m, m.variant))
    ∧ (c.is_active = false → Mask.extract_component m c = none) := by
  constructor <;> intro h <;> simp [Mask.extract_component, h]

/-- Concrete instantiation of `extract_component_active`: an active camera
yields the entry for `Mask.square`, an inactive one yields none for
`Mask.vignette`. -/
theorem extract_component_active_witness :
    Mask.extract_component Mask.square ⟨true⟩ =
      some (MaskUniform.ofMask Mask.square, MaskVariant.Square)
    ∧ Mask.extract_component Mask.vignette ⟨false⟩ = none :=
  ⟨(extract_component_active Mask.square ⟨true⟩).1 rfl,
   (extract_component_active Mask.vignette ⟨false⟩).2 rfl⟩

/-- C3: after `queue`, the bind group is present iff the uniform buffer
binding exists and some entity carries a `MaskUniform`; the result never
depends on the previous frame's bind group (the slot is cleared first);
and when present it references the current frame's binding. -/
theorem queue_bind_group (binding : Option Nat) (views : List Nat)
    (p : Option MaskBindGroup) :
    ((queue binding views p).isSome ↔ binding.isSome ∧ views ≠ [])
    ∧ (∀ q, queue binding views p = queue binding views q)
    ∧ (∀ g, queue binding views p = some g → binding = some g.buffer) := by
  refine ⟨?_, ?_, ?_⟩
  · cases binding with
    | none => simp [queue]
    | some b =>
      cases views with
      | nil => simp [queue]
      | cons v vs => simp [queue]
  · intro q; cases binding <;> rfl
  · intro g h
    cases binding with
    | none => simp [queue] at h
    | some b =>
      cases views with
      | nil => simp [queue] at h
      | cons v vs =>
        simp [queue] at h
        rw [← h]

/-- Concrete instantiation of `queue_bind_group`: with binding 5 and one
entity, the produced bind group references buffer 5. -/
theorem queue_bind_group_witness : (some 5 : Option Nat) = some (MaskBindGroup.mk 5).buffer :=
  (queue_bind_group (some 5) [0] none).2.2 ⟨5⟩ (by decide)

/-- C4: the uniform record preserves `strength` and `fade` exactly and
holds nothing else — it is fully determined by those two fields (the
variant is excluded) — and extraction carries the variant separately,
next to the uniform, as the specialization key. -/
theorem maskUniform_preserves (m n : Mask) (c : Camera) :
    (MaskUniform.ofMask m).strength = m.strength
    ∧ (MaskUniform.ofMask m).fade = m.fade
    ∧ (∀ u : MaskUniform, u = ⟨u.strength, u.fade⟩)
    ∧ (n.strength = m.strength → n.fade = m.fade →
        MaskUniform.ofMask n = MaskUniform.ofMask m)
    ∧ (c.is_active = true →
        Mask.extract_component m c = some (MaskUniform.ofMask m, m.variant)) := by
  refine ⟨rfl, rfl, fun u => rfl, fun h1 h2 => ?_, fun h => ?_⟩
  · simp [MaskUniform.ofMask, h1, h2]
  · simp [Mask.extract_component, h]

/-- Concrete instantiation of `maskUniform_preserves`: two masks equal in
strength and fade but with different variants map to the same uniform. -/
theorem maskUniform_preserves_witness :
    MaskUniform.ofMask ⟨20, 0, MaskVariant.Crt⟩ = MaskUniform.ofMask Mask.square :=
  (maskUniform_preserves Mask.square ⟨20, 0, MaskVariant.Crt⟩ ⟨true⟩).2.2.2.1
    (by decide) (by decide)

/-- C7: the variant-to-define mapping is exhaustive over the closed set of
three variants and injective — Square to "SQUARE", Crt to "CRT", Vignette
to "VIGNETTE" — in both the pipeline-integrated path and the legacy
material path, and each specialized descriptor carries exactly its key's
define, so distinct variants give distinct descriptors. -/
theorem shader_defines_exhaustive_injective :
    MaskVariant.shaderDefVal .Square = "SQUARE"
    ∧ MaskVariant.shaderDefVal .Crt = "CRT"
    ∧ MaskVariant.shaderDefVal .Vignette = "VIGNETTE"
    ∧ ImageMaskVariant.specializeDef .Square = "SQUARE"
    ∧ ImageMaskVariant.specializeDef .Crt = "CRT"
    ∧ ImageMaskVariant.specializeDef .Vignette = "VIGNETTE"
    ∧ (∀ v u : MaskVariant, MaskVariant.shaderDefVal v = MaskVariant.shaderDefVal u ↔ v = u)
    ∧ (∀ v u : ImageMaskVariant,
        ImageMaskVariant.specializeDef v = ImageMaskVariant.specializeDef u ↔ v = u)
    ∧ (∀ v : MaskVariant, (MaskData.specialize v).shader_defs = [MaskVariant.shaderDefVal v])
    ∧ (∀ v u : MaskVariant, MaskData.specialize v = MaskData.specialize u ↔ v = u) := by
  decide

/-- C8: extraction is deterministic — two runs on equal `(Mask, Camera)`
inputs produce equal outputs — and free of scene-side mutation: the
extraction step returns the scene pair unchanged. -/
theorem extract_deterministic_pure (m m2 : Mask) (c c2 : Camera) :
    ((extractStep (m, c)).1 = (m, c))
    ∧ (m = m2 → c = c2 →
        Mask.extract_component m c = Mask.extract_component m2 c2) :=
  ⟨rfl, fun h1 h2 => by rw [h1, h2]⟩

/-- Concrete instantiation of `extract_deterministic_pure`: two runs on
the same square mask and active camera agree. -/
theorem extract_deterministic_pure_witness :
    Mask.extract_component Mask.square ⟨true⟩ = Mask.extract_component Mask.square ⟨true⟩ :=
  (extract_deterministic_pure Mask.square Mask.square ⟨true⟩ ⟨true⟩).2 rfl rfl

/-- C9 counterexample: a runtime controller writing 2 to the public `fade`
field yields a mask whose fade lies outside `[0, 1]` — nothing in the
crate clamps the field, so the interval is not an invariant over the
instance's whole lifetime. -/
theorem fade_unclamped_counterexample :
    ¬ (0 ≤ (Mask.setFade Mask.square 2).fade ∧ (Mask.setFade Mask.square 2).fade ≤ 1) := by
  decide

/-- C9 amended: every mask produced by the crate's constructors (square,
crt, vignette, and the default) has `fade ∈ [0, 1]` — it is exactly 0 —
but the bound is not enforced against later writes to the public field. -/
theorem fade_in_unit_interval_at_creation :
    (0 ≤ Mask.square.fade ∧ Mask.square.fade ≤ 1)
    ∧ (0 ≤ Mask.crt.fade ∧ Mask.crt.fade ≤ 1)
    ∧ (0 ≤ Mask.vignette.fade ∧ Mask.vignette.fade ≤ 1)
    ∧ (0 ≤ Mask.default.fade ∧ Mask.default.fade ≤ 1) := by
  decide

/-- C10: the preset constructors produce exactly the documented field
values, and the `Default` implementation equals `Mask::vignette()`. -/
theorem mask_constructor_values :
    Mask.square.strength = 20 ∧ Mask.square.fade = 0
    ∧ Mask.square.variant = MaskVariant.Square
    ∧ Mask.crt.strength = 80000 ∧ Mask.crt.fade = 0
    ∧ Mask.crt.variant = MaskVariant.Crt
    ∧ Mask.vignette.strength = 0.66 ∧ Mask.vignette.fade = 0
    ∧ Mask.vignette.variant = MaskVariant.Vignette
    ∧ Mask.default = Mask.vignette :=
  ⟨rfl, rfl, rfl, rfl, rfl, rfl, rfl, rfl, rfl, rfl⟩

/-- Rewriting lemma: processing a key and then a list threads the state. -/
theorem processAll_cons (s : SpecializedRenderPipelines) (k : MaskVariant)
    (ks : List MaskVariant) :
    processAll s (k :: ks) = processAll (getOrBuild k s).2 ks := rfl

/-- Rewriting lemma: a final request acts on the state left by the rest. -/
theorem processAll_append_singleton (s : SpecializedRenderPipelines)
    (ks : List MaskVariant) (k : MaskVariant) :
    processAll s (ks ++ [k]) = (getOrBuild k (processAll s ks)).2 := by
  simp [processAll, List.foldl_append]

/-- A key is present in the cache right after it is requested. -/
theorem lookupId_getOrBuild_self (k : MaskVariant) (s : SpecializedRenderPipelines) :
    (lookupId k (getOrBuild k s).2.entries).isSome = true := by
  cases h : lookupId k s.entries with
  | some i => simp [getOrBuild, h]
  | none => simp [getOrBuild, h, lookupId]

/-- Requesting any key never evicts an existing cache entry. -/
theorem lookupId_getOrBuild_mono (k j : MaskVariant) (s : SpecializedRenderPipelines)
    (h : (lookupId k s.entries).isSome = true) :
    (lookupId k (getOrBuild j s).2.entries).isSome = true := by
  cases hj : lookupId j s.entries with
  | some i => simpa [getOrBuild, hj] using h
  | none =>
    by_cases hkj : j = k
    · subst hkj
      exact lookupId_getOrBuild_self j s
    · simp [getOrBuild, hj, lookupId, hkj, h]

/-- Presence in the cache is preserved across any further requests. -/
theorem lookupId_processAll_mono (k : MaskVariant) (s : SpecializedRenderPipelines)
    (ks : List MaskVariant) (h : (lookupId k s.entries).isSome = true) :
    (lookupId k (processAll s ks).entries).isSome = true := by
  induction ks generalizing s with
  | nil => exact h
  | cons a as ih =>
    rw [processAll_cons]
    exact ih _ (lookupId_getOrBuild_mono k a s h)

/-- Every requested key is present in the cache afterwards. -/
theorem lookupId_processAll_of_mem (s : SpecializedRenderPipelines)
    (ks : List MaskVariant) (k : MaskVariant) (h : k ∈ ks) :
    (lookupId k (processAll s ks).entries).isSome = true := by
  induction ks generalizing s with
  | nil => cases h
  | cons a as ih =>
    rw [processAll_cons]
    rcases List.mem_cons.1 h with rfl | hmem
    · exact lookupId_processAll_mono k _ as (lookupId_getOrBuild_self k s)
    · exact ih _ hmem

/-- A request for an already-cached key returns without changing state. -/
theorem getOrBuild_cached (k : MaskVariant) (s : SpecializedRenderPipelines)
    (h : (lookupId k s.entries).isSome = true) : (getOrBuild k s).2 = s := by
  cases hx : lookupId k s.entries with
  | some i => simp [getOrBuild, hx]
  | none => simp [hx] at h

/-- Cache well-formedness: the compilation log has no duplicates and logs
exactly the keys present among the entries. -/
def CacheInv (s : SpecializedRenderPipelines) : Prop :=
  s.compiledLog.Nodup ∧
    ∀ k, k ∈ s.compiledLog ↔ (lookupId k s.entries).isSome = true

/-- The empty cache is well-formed. -/
theorem cacheInv_empty : CacheInv SpecializedRenderPipelines.empty := by
  constructor
  · exact List.nodup_nil
  · intro k
    simp [SpecializedRenderPipelines.empty, lookupId]

/-- One request preserves cache well-formedness: a compilation happens
only for a key that was absent, so the log stays duplicate-free. -/
theorem cacheInv_getOrBuild (k : MaskVariant) (s : SpecializedRenderPipelines)
    (h : CacheInv s) : CacheInv (getOrBuild k s).2 := by
  obtain ⟨hnd, hiff⟩ := h
  cases hx : lookupId k s.entries with
  | some i => simpa [getOrBuild, hx] using ⟨hnd, hiff⟩
  | none =>
    have hk : k ∉ s.compiledLog := by
      intro hmem
      rw [hiff k, hx] at hmem
      exact Bool.false_ne_true hmem
    constructor
    · simp only [getOrBuild, hx]
      exact List.Nodup.append hnd (List.nodup_singleton k)
        (by simpa [List.disjoint_singleton] using hk)
    · intro j
      by_cases hjk : k = j
      · subst hjk
        simp [getOrBuild, hx, lookupId]
      · simp [getOrBuild, hx, lookupId, hjk, Ne.symm hjk, hiff j]

/-- Any request sequence preserves cache well-formedness. -/
theorem cacheInv_processAll (s : SpecializedRenderPipelines)
    (ks : List MaskVariant) (h : CacheInv s) : CacheInv (processAll s ks) := by
  induction ks generalizing s with
  | nil => exact h
  | cons a as ih =>
    rw [processAll_cons]
    exact ih _ (cacheInv_getOrBuild a s h)

/-- C2: starting from the empty specialization cache, any request
sequence — across any number of frames and instances — compiles each
distinct variant key at most once, and a further request for a key that
was already requested leaves the cache state unchanged (it only returns
the cached id): `get_or_build` is idempotent in its effect on the cache. -/
theorem specialize_compiles_once (ks : List MaskVariant) (k : MaskVariant) :
    ((processAll SpecializedRenderPipelines.empty ks).compiledLog.count k ≤ 1)
    ∧ (k ∈ ks →
        processAll SpecializedRenderPipelines.empty (ks ++ [k]) =
          processAll SpecializedRenderPipelines.empty ks) := by
  have hinv := cacheInv_processAll SpecializedRenderPipelines.empty ks cacheInv_empty
  refine ⟨List.nodup_iff_count_le_one.1 hinv.1 k, fun hk => ?_⟩
  rw [processAll_append_singleton]
  exact getOrBuild_cached _ _ (lookupId_processAll_of_mem _ ks k hk)

/-- Concrete instantiation of `specialize_compiles_once` on the request
sequence Square, Crt, Square: Square is compiled at most once, and a
fourth request (Square again) does not change the cache. -/
theorem specialize_compiles_once_witness :
    ((processAll SpecializedRenderPipelines.empty
        [MaskVariant.Square, MaskVariant.Crt, MaskVariant.Square]).compiledLog.count
          MaskVariant.Square ≤ 1)
    ∧ processAll SpecializedRenderPipelines.empty
        ([MaskVariant.Square, MaskVariant.Crt, MaskVariant.Square] ++ [MaskVariant.Square]) =
        processAll SpecializedRenderPipelines.empty
          [MaskVariant.Square, MaskVariant.Crt, MaskVariant.Square] :=
  ⟨(specialize_compiles_once [.Square, .Crt, .Square] .Square).1,
   (specialize_compiles_once [.Square, .Crt, .Square] .Square).2 (by decide)⟩

/-- The `prepare` output has one phase queue per extracted view. -/
theorem prepare_length (df : Nat) (s : SpecializedRenderPipelines)
    (vs : List ViewInput) : (prepare df s vs).2.length = vs.length := by
  induction vs generalizing s with
  | nil => rfl
  | cons v vsr ih => simp [prepare, ih]

/-- C5: for every extracted view, `prepare` appends exactly one phase item
to that view's phase queue, whose sort key is the view's Order, whose
draw-function id is the registered one, and whose pipeline id is the one
the specialization cache resolves for the view's variant key (in the
cache state reached after the preceding views). -/
theorem prepare_appends_one_item (df : Nat) (s : SpecializedRenderPipelines)
    (vs : List ViewInput) (i : Nat) (v : ViewInput) (h : vs[i]? = some v) :
    ((prepare df s vs).2.length = vs.length)
    ∧ ((prepare df s vs).2[i]? = some (v.phase ++
        [⟨v.entity, v.order, df,
          (getOrBuild v.key (processAll s ((vs.take i).map ViewInput.key))).1⟩])) := by
  refine ⟨prepare_length df s vs, ?_⟩
  induction vs generalizing s i with
  | nil => simp at h
  | cons w ws ih =>
    cases i with
    | zero =>
      simp only [List.getElem?_cons_zero, Option.some.injEq] at h
      subst h
      simp [prepare, processAll]
    | succ n =>
      simp only [List.getElem?_cons_succ] at h
      have hrec := ih (getOrBuild w.key s).2 n h
      simp only [prepare, List.getElem?_cons_succ, List.take_succ_cons,
        List.map_cons, processAll_cons]
      exact hrec

/-- Concrete instantiation of `prepare_appends_one_item`: one view with
entity 1, empty phase, Order 3 and key Square gains exactly the item
(entity 1, sort key 3, draw function 7, pipeline id 0). -/
theorem prepare_appends_one_item_witness :
    ((prepare 7 SpecializedRenderPipelines.empty
        [⟨1, [], 3, MaskVariant.Square⟩]).2.length = 1)
    ∧ ((prepare 7 SpecializedRenderPipelines.empty
        [⟨1, [], 3, MaskVariant.Square⟩]).2[0]? = some [⟨1, 3, 7, 0⟩]) := by
  have h := prepare_appends_one_item 7 SpecializedRenderPipelines.empty
    [⟨1, [], 3, MaskVariant.Square⟩] 0 ⟨1, [], 3, MaskVariant.Square⟩ rfl
  exact ⟨h.1, by rw [h.2]; rfl⟩

/-- Filtering by an exact sort key commutes with ordered insertion: the
inserted item lands in front of the kept items of its own key (every item
it is placed behind has a strictly smaller key). -/
theorem filter_orderedInsert (k : ℚ) (x : PostProcessingPhaseItem)
    (ys : List PostProcessingPhaseItem) :
    (List.orderedInsert itemLE x ys).filter (fun it => decide (it.sort_key = k)) =
      if x.sort_key = k
      then x :: ys.filter (fun it => decide (it.sort_key = k))
      else ys.filter (fun it => decide (it.sort_key = k)) := by
  induction ys with
  | nil =>
    by_cases hk : x.sort_key = k <;> simp [List.filter, hk]
  | cons y ys ih =>
    by_cases hxy : itemLE x y
    · rw [List.orderedInsert, if_pos hxy]
      by_cases hk : x.sort_key = k <;> simp [List.filter, hk]
    · rw [List.orderedInsert, if_neg hxy]
      have hlt : y.sort_key < x.sort_key := lt_of_not_le hxy
      by_cases hk : x.sort_key = k
      · have hyk : ¬ y.sort_key = k := by
          rw [← hk]
          exact ne_of_lt hlt
        simp [List.filter_cons, hyk, hk, ih]
      · simp [List.filter_cons, ih, hk]

/-- Insertion sort preserves, for every key value, the subsequence of
items carrying exactly that key: ties keep their input order. -/
theorem filter_insertionSort (k : ℚ) (l : List PostProcessingPhaseItem) :
    (List.insertionSort itemLE l).filter (fun it => decide (it.sort_key = k)) =
      l.filter (fun it => decide (it.sort_key = k)) := by
  induction l with
  | nil => rfl
  | cons x l ih =>
    rw [List.insertionSort, filter_orderedInsert]
    by_cases hk : x.sort_key = k <;> simp [List.filter_cons, hk, ih]

/-- C6: the phase queue sort orders items ascending by their Order sort
key, is a permutation of the built queue, and is stable — for every key
value, the items carrying that key keep their insertion order. -/
theorem phase_sort_ascending_stable (l : List PostProcessingPhaseItem) (k : ℚ) :
    List.Sorted itemLE (sortPhase l)
    ∧ (sortPhase l).Perm l
    ∧ (sortPhase l).filter (fun it => decide (it.sort_key = k)) =
        l.filter (fun it => decide (it.sort_key = k)) :=
  ⟨List.sorted_insertionSort itemLE l, List.perm_insertionSort itemLE l,
   filter_insertionSort k l⟩
